import Mathlib

/-!
Verification of the network-troubleshooting agent repository.

This file gives a shallow embedding, in Lean 4, of the pure control flow of
the repository's tool implementations and agent wiring:

* `src/tools/vpc-flow-logs.ts` (`queryVpcFlowLogs`),
* `src/tools/identify-network-projects.ts` (`detectAgentScope`),
* `src/tools/connectivity-test.ts` (`runConnectivityTest`),
* `src/tools/firewall-manager.ts` (`manageFirewallRule`),
* `src/agent.ts` (agent tree, delegation, and per-request session ids).

External services (Cloud Asset Inventory, BigQuery, the reachability API,
the Compute firewall API) are modelled as environments: functions from the
request the code makes to the response or failure the service returns.  The
JavaScript control flow around those calls — try/catch placement, guard
order, accumulation into arrays and `Set`s, sorting, truncation — is
translated statement by statement.  Side-effecting calls the code makes
(API mutations, deletes) are additionally recorded in the returned value so
that call-count properties can be stated.
-/

namespace AdkNet

/-- JavaScript `Set` insertion: append an element only if it is not already
present (insertion order preserved, as `Array.from(set)` observes). -/
def insertUniq (l : List String) (x : String) : List String :=
  if x ∈ l then l else l ++ [x]

/-- Fold `insertUniq` over a list: the model of `new Set(list)` followed by
`Array.from`, i.e. order-preserving deduplication. -/
def insertAll (acc : List String) (xs : List String) : List String :=
  xs.foldl insertUniq acc

/-- Model of the regex global scans `/projects\/([^...]+)suffix/g` used
throughout the repository.  At each position of the input, if the literal
`projects/` starts there, the candidate id is the maximal following run of
characters outside `bad`; the match succeeds when that run is nonempty and
is followed by `suffix`, in which case the scan resumes after the whole
match (JavaScript `matchAll` semantics).  `fuel` bounds the recursion and is
always instantiated with the input length, which suffices because every
step consumes at least one character. -/
def scanMatchesAux (bad : List Char) (suffix : List Char) :
    Nat → List Char → List String
  | 0, _ => []
  | _ + 1, [] => []
  | fuel + 1, c :: rest =>
    let s := c :: rest
    if ("projects/".toList).isPrefixOf s then
      let after := s.drop 9
      let ident := after.takeWhile (fun ch => !bad.contains ch)
      let tail := after.drop ident.length
      if ident.isEmpty then
        scanMatchesAux bad suffix fuel rest
      else if suffix.isPrefixOf tail then
        String.mk ident :: scanMatchesAux bad suffix fuel (tail.drop suffix.length)
      else
        scanMatchesAux bad suffix fuel rest
    else
      scanMatchesAux bad suffix fuel rest

/-- All matches of a `projects/<id>` pattern in a string (see
`scanMatchesAux`). -/
def scanMatches (bad : List Char) (suffix : List Char) (s : String) : List String :=
  scanMatchesAux bad suffix s.toList.length s.toList

/-- Model of `url.match(/projects\/([^\/]+)\//)`: the first captured project
id, if any. -/
def firstProjectMatch (s : String) : Option String :=
  (scanMatches ['/'] ['/'] s).head?

/-- Model of `str.matchAll(/projects\/([^\/"]+)\//g)` capture list. -/
def allProjectMatches (s : String) : List String :=
  scanMatches ['/', '"'] ['/'] s

/-- Model of `str.matchAll(/projects\/([^\/"]+)\/global\/networks/g)`
capture list (the peering heuristic). -/
def peeringProjectMatches (s : String) : List String :=
  scanMatches ['/', '"'] "/global/networks".toList s

/-! ## Flow-log correlation (`src/tools/vpc-flow-logs.ts`) -/

/-- One row returned by the per-project BigQuery flow-log query, with the
fields the SELECT clause projects out.  The timestamp is modelled as a
natural number (milliseconds), matching the `getTime()` comparison used by
the sort. -/
structure FlowRecord where
  timestamp : Nat
  src_ip : String
  src_port : Nat
  dest_ip : String
  dest_port : Nat
  protocol : Nat
  bytes_sent : Nat
  rtt_msec : Nat
  subnetwork_name : String
  resource_project_id : String
deriving DecidableEq

/-- A flow record after the `{...row, source_dataset_project: projectId}`
tagging step. -/
structure TaggedRecord extends FlowRecord where
  source_dataset_project : String
deriving DecidableEq

/-- Tag a queried row with the project whose dataset produced it. -/
def tagRecord (p : String) (r : FlowRecord) : TaggedRecord :=
  { toFlowRecord := r, source_dataset_project := p }

/-- One entry of the `errors` array: `{ projectId, error: err.message }`. -/
structure FlowLogError where
  projectId : String
  error : String
deriving DecidableEq

/-- Per-project outcome of the BigQuery query: the rows, or the thrown
message. -/
abbrev FlowLogEnv := String → Except String (List FlowRecord)

/-- The per-project loop of `queryVpcFlowLogs`: each project of the deduped
list is queried once; successful rows are tagged and appended, a failure
appends one `{projectId, error}` entry and the loop continues. -/
def collectFlowLogs (env : FlowLogEnv) :
    List String → List TaggedRecord × List FlowLogError
  | [] => ([], [])
  | p :: ps =>
    let rest := collectFlowLogs env ps
    match env p with
    | .ok rows => (rows.map (tagRecord p) ++ rest.1, rest.2)
    | .error e => (rest.1, ⟨p, e⟩ :: rest.2)

/-- Sort comparator of the final merge: `(a, b) => tB - tA`, i.e. `b`'s
timestamp at most `a`'s — descending order. -/
def tsGE (a b : TaggedRecord) : Prop :=
  b.timestamp ≤ a.timestamp

instance : DecidableRel tsGE := fun a b =>
  inferInstanceAs (Decidable (b.timestamp ≤ a.timestamp))

instance : IsTotal TaggedRecord tsGE :=
  ⟨fun a b => (Nat.le_total b.timestamp a.timestamp).elim Or.inl Or.inr⟩

instance : IsTrans TaggedRecord tsGE :=
  ⟨fun _ _ _ hab hbc => Nat.le_trans hbc hab⟩

/-- Result object of `queryVpcFlowLogs` (an empty `errors` list models the
`undefined` the code returns when no errors occurred). -/
structure FlowLogsResult where
  recordCount : Nat
  records : List TaggedRecord
  errors : List FlowLogError
  message : String
deriving DecidableEq

/-- Shallow embedding of `queryVpcFlowLogs`: dedup the project list, query
each project once (collecting rows and per-project errors), sort the merged
rows by timestamp descending, truncate to `limit`, and build the result
message. -/
def queryVpcFlowLogs (env : FlowLogEnv) (projects : List String)
    (limit : Nat) : FlowLogsResult :=
  let uniqueProjects := insertAll [] projects
  let collected := collectFlowLogs env uniqueProjects
  let sorted := List.insertionSort tsGE collected.1
  let finalResults := sorted.take limit
  { recordCount := finalResults.length
    records := finalResults
    errors := collected.2
    message :=
      if finalResults.length > 0 then
        "Found " ++ toString finalResults.length ++ " flow log entries."
      else
        "No flow logs found. Verified in projects: " ++
          String.intercalate ", " uniqueProjects ++
          ". Ensure VPC Flow Logs are ENABLED and exported to BigQuery dataset \x27flow_logs\x27 in these projects." }

/-! ## Project-scope discovery (`src/tools/identify-network-projects.ts`) -/

/-- One entry of the `projectGraph` array: either a discovered relationship
`{source, target, reason}` or a per-project scan error `{source, error}`. -/
inductive GraphEntry
  | edge (source target reason : String)
  | scanError (source message : String)
deriving DecidableEq

/-- A usable subnetwork returned by `subnetworks.listUsable`; the code reads
`subnet.subnetwork || subnet.network` (absent/falsy fields modelled as
`none`). -/
structure UsableSubnet where
  subnetwork : Option String
  network : Option String
deriving DecidableEq

/-- A resource returned by the batched `searchAllResources` call.  The
forwarding-rule branch reads the `subnetwork`/`network` attributes; the
peering and interconnect branches pattern-match on
`JSON.stringify(additionalAttributes)`, which the environment supplies as
`attrsString` (`none` models absent attributes). -/
structure AssetResource where
  assetType : String
  displayName : String
  subnetworkAttr : Option String
  networkAttr : Option String
  attrsString : Option String
deriving DecidableEq

/-- One network interface of a VM instance (`nic.network`,
`nic.subnetwork`). -/
structure Nic where
  network : Option String
  subnetwork : Option String
deriving DecidableEq

/-- A VM instance from the supplementary `searchAllResources` call; an
instance without `networkInterfaces` is modelled by an empty `nics` list. -/
structure InstanceResource where
  displayName : String
  nics : List Nic
deriving DecidableEq

/-- Responses of the four external calls `detectAgentScope` makes for one
scanned project.  `getXpnHost` and `listUsable` failures are swallowed by
inner try/catch blocks; failures of either `searchAllResources` call
propagate to the outer catch. -/
structure ProjectScanEnv where
  xpnResult : Except String (Option String)
  usableSubnets : Except String (List UsableSubnet)
  searchResources : Except String (List AssetResource)
  searchInstances : Except String (List InstanceResource)

/-- Mutable state threaded through a discovery run: the `visitedProjects`
set (as an insertion-ordered list), the `projectGraph` array, and the list
of projects for which a scan was started (mirroring the per-iteration
`[AgentScope] Scanning ...` log). -/
structure ScanState where
  visited : List String
  graph : List GraphEntry
  scanned : List String
deriving DecidableEq

/-- The common guarded insertion used at every extraction site: skip the
scanned project itself, skip the deny-listed id when the site checks it
(`deny` is true only at the instance-NIC site), and otherwise add the
target to `visitedProjects` and push one edge — only if the target was not
already visited. -/
def pushCandidate (src : String) (deny : Bool) (st : ScanState)
    (c : String × String) : ScanState :=
  if c.1 = src then st
  else if deny && c.1 = "google-cloud-clients" then st
  else if c.1 ∈ st.visited then st
  else { st with visited := st.visited ++ [c.1],
                 graph := st.graph ++ [.edge src c.1 c.2] }

/-- Candidates of the `listUsable` loop: for each usable subnet take
`subnetwork || network`, match `projects/<id>/`, and build the reason
string. -/
def usableCandidates (subs : List UsableSubnet) : List (String × String) :=
  subs.flatMap fun sub =>
    let rawUrl := match sub.subnetwork with
      | some u => some u
      | none => sub.network
    match rawUrl with
    | none => []
    | some u =>
      match firstProjectMatch u with
      | none => []
      | some p =>
        [(p, "Project has usable subnet " ++ u ++ " from Host Project " ++ p)]

/-- Candidates of the forwarding-rule branch: for each `ForwardingRule`
resource check the `subnetwork` and `network` attributes (in that order). -/
def frCandidates (resources : List AssetResource) : List (String × String) :=
  (resources.filter (fun r => r.assetType = "compute.googleapis.com/ForwardingRule")).flatMap
    fun r =>
      ([r.subnetworkAttr, r.networkAttr].filterMap id).flatMap fun uri =>
        match firstProjectMatch uri with
        | none => []
        | some p =>
          [(p, "ForwardingRule " ++ r.displayName ++ " uses network/subnet in " ++ p)]

/-- Candidates of the instance loop: for each NIC check `network` then
`subnetwork`.  This is the only site that also applies the
`google-cloud-clients` deny check (done in `pushCandidate` via `deny`). -/
def instCandidates (instances : List InstanceResource) : List (String × String) :=
  instances.flatMap fun inst =>
    inst.nics.flatMap fun nic =>
      ([nic.network, nic.subnetwork].filterMap id).flatMap fun uri =>
        match firstProjectMatch uri with
        | none => []
        | some p =>
          [(p, "Instance " ++ inst.displayName ++ " uses network/subnet in " ++
                p ++ " (Shared VPC Host)")]

/-- Candidates of the peering branch: over each `Network` resource with
attributes, all `projects/<id>/global/networks` matches of the serialized
attributes. -/
def peeringCandidates (resources : List AssetResource) : List (String × String) :=
  (resources.filter (fun r => r.assetType = "compute.googleapis.com/Network")).flatMap
    fun net =>
      match net.attrsString with
      | none => []
      | some attrs =>
        (peeringProjectMatches attrs).map fun p =>
          (p, "Network " ++ net.displayName ++ " has peering/link to " ++ p)

/-- Candidates of the interconnect branch: over each
`InterconnectAttachment` resource, all `projects/<id>/` matches of the
serialized attributes (absent attributes serialize to an empty object with
no matches). -/
def icCandidates (resources : List AssetResource) : List (String × String) :=
  (resources.filter
      (fun r => r.assetType = "compute.googleapis.com/InterconnectAttachment")).flatMap
    fun ic =>
      (allProjectMatches (ic.attrsString.getD "\x7b\x7d")).map fun p =>
        (p, "Interconnect Attachment " ++ ic.displayName ++ " references " ++ p)

/-- Scan of one root project, in source order: XPN-host lookup, usable
subnets, the batched resource search (forwarding rules), the instance
search (NICs), then the peering and interconnect branches over the batched
results.  A failure of either `searchAllResources` call pushes a
`{source, error}` entry and ends the scan of this project. -/
def scanProject (env : ProjectScanEnv) (projectId : String)
    (st : ScanState) : ScanState :=
  let st := { st with scanned := st.scanned ++ [projectId] }
  let st := match env.xpnResult with
    | .error _ => st
    | .ok none => st
    | .ok (some host) =>
      pushCandidate projectId false st
        (host, "Project is a Service Project attached to Host Project " ++ host)
  let st := match env.usableSubnets with
    | .error _ => st
    | .ok subs => (usableCandidates subs).foldl (pushCandidate projectId false) st
  match env.searchResources with
  | .error e => { st with graph := st.graph ++ [.scanError projectId e] }
  | .ok resources =>
    let st := (frCandidates resources).foldl (pushCandidate projectId false) st
    match env.searchInstances with
    | .error e => { st with graph := st.graph ++ [.scanError projectId e] }
    | .ok instances =>
      let st := (instCandidates instances).foldl (pushCandidate projectId true) st
      let st := (peeringCandidates resources).foldl (pushCandidate projectId false) st
      (icCandidates resources).foldl (pushCandidate projectId false) st

/-- The duck-typed `rootProjects` argument: an array, a string, or any other
value. -/
inductive RootsInput
  | arr (l : List String)
  | str (s : String)
  | other

/-- Input normalization of `detectAgentScope`: arrays pass through, strings
are split on commas and trimmed, anything else yields no start projects. -/
def parseRoots : RootsInput → List String
  | .arr l => l
  | .str s => (s.splitOn ",").map String.trim
  | .other => []

/-- Return value of `detectAgentScope`, plus the instrumented list of
projects that were scanned. -/
structure ScopeResult where
  detectedScope : List String
  relationships : List GraphEntry
  scanned : List String
deriving DecidableEq

/-- Shallow embedding of `detectAgentScope`: normalize the input, seed
`visitedProjects` with the start projects (a JS `Set`, so deduplicated),
and scan exactly the start projects in input order. -/
def detectAgentScope (env : String → ProjectScanEnv)
    (input : RootsInput) : ScopeResult :=
  let startProjects := parseRoots input
  let init : ScanState := ⟨insertAll [] startProjects, [], []⟩
  let final := startProjects.foldl (fun st pid => scanProject (env pid) pid st) init
  ⟨final.visited, final.graph, final.scanned⟩

/-- Targets of the edge entries of a graph (scan errors carry no target). -/
def edgeTargets (g : List GraphEntry) : List String :=
  g.filterMap fun e =>
    match e with
    | .edge _ t _ => some t
    | .scanError _ _ => none

/-! ## Reachability probe (`src/tools/connectivity-test.ts`) -/

/-- One trace of the reachability details; each step is supplied by the
environment already serialized (`JSON.stringify(step)`), which is what the
code pattern-matches on. -/
structure ProbeTrace where
  steps : List String
deriving DecidableEq

/-- The completed connectivity-test resource read back after the operation
promise resolves. -/
structure ProbeResponse where
  result : Option String
  verifyTime : Option String
  errorInfo : Option String
  traces : List ProbeTrace
deriving DecidableEq

/-- Outcomes of the two external calls `runConnectivityTest` makes:
`createConnectivityTest` + `operation.promise()` (combined, since both are
awaited inside the same try), and `deleteConnectivityTest`. -/
structure ProbeEnv where
  createResult : Except String ProbeResponse
  deleteResult : Except String Unit

/-- Success/failure result object of `runConnectivityTest`. -/
inductive ProbeOutcome
  | ok (testId : String) (result : Option String) (discoveredScope : List String)
      (message : String)
  | fail (error : String) (suggestion : String)
deriving DecidableEq

/-- Scan of every trace step for embedded project ids, excluding the test's
own project and the deny-listed client identity, deduplicated in first-seen
order (a JS `Set`). -/
def discoverFromTraces (projectId : String) (traces : List ProbeTrace) :
    List String :=
  traces.foldl
    (fun acc tr =>
      tr.steps.foldl
        (fun acc step =>
          (allProjectMatches step).foldl
            (fun acc p =>
              if p ≠ projectId && p ≠ "google-cloud-clients" then
                insertUniq acc p
              else acc)
            acc)
        acc)
    []

/-- Remediation hint attached to every failure result. -/
def probeSuggestion : String :=
  "Ensure API \x27networkmanagement.googleapis.com\x27 is enabled and the agent has permissions."

/-- Shallow embedding of `runConnectivityTest`.  The second component
counts the `deleteConnectivityTest` calls made.  The delete happens inside
the try block after a successful create/evaluate; a failure anywhere in the
try (including the delete itself) is answered by the single catch with an
error result. -/
def runConnectivityTest (env : ProbeEnv) (projectId : String) (now : Nat) :
    ProbeOutcome × Nat :=
  let testId := "adk-test-" ++ toString now
  match env.createResult with
  | .error e => (.fail e probeSuggestion, 0)
  | .ok resp =>
    let discovered := discoverFromTraces projectId resp.traces
    match env.deleteResult with
    | .error e => (.fail e probeSuggestion, 1)
    | .ok _ =>
      (.ok testId resp.result discovered
        ("Test completed. Result: " ++
          (match resp.result with | some r => r | none => "undefined") ++
          ". Discovered related projects: " ++ String.intercalate ", " discovered),
       1)

/-! ## Firewall mutation executor (`src/tools/firewall-manager.ts`) -/

/-- The long-running-operation handle a mutation call returns; the code
awaits `operation.promise()` only when that method exists. -/
structure OpHandle where
  hasPromise : Bool
  promiseResult : Except String Unit

/-- Outcomes of the three possible Compute Engine calls. -/
structure FirewallEnv where
  insertResult : Except String OpHandle
  patchResult : Except String OpHandle
  deleteResult : Except String OpHandle

/-- Parameters of `manageFirewallRule` that drive its control flow. -/
structure FwParams where
  projectId : String
  action : String
  ruleName : String
  network : Option String
deriving DecidableEq

/-- Result object: `{status: 'success'|'error', message}`. -/
structure FwResult where
  status : String
  message : String
deriving DecidableEq

/-- External mutation calls recorded by the embedding. -/
inductive FwApiCall
  | insert
  | patch
  | delete
deriving DecidableEq

/-- The failure result built by the catch block. -/
def fwFailure (action msg : String) : FwResult :=
  ⟨"error", "Failed to " ++ action ++ " firewall rule: " ++ msg⟩

/-- The success result. -/
def fwSuccess (action ruleName : String) : FwResult :=
  ⟨"success",
    "Successfully performed \x27" ++ action ++ "\x27 on firewall rule \x27" ++
      ruleName ++ "\x27."⟩

/-- Common tail of the three recognized actions: await the operation
promise when present, then report success; a promise rejection is caught
and reported as failure. -/
def fwAwait (action ruleName : String) (op : OpHandle)
    (calls : List FwApiCall) : FwResult × List FwApiCall :=
  if op.hasPromise then
    match op.promiseResult with
    | .error e => (fwFailure action e, calls)
    | .ok _ => (fwSuccess action ruleName, calls)
  else
    (fwSuccess action ruleName, calls)

/-- Shallow embedding of `manageFirewallRule`: dispatch on `action`; an
unrecognized action throws before any API call and the catch converts the
throw into an error result; every API failure is likewise caught and
converted.  The second component lists the external mutation calls made. -/
def manageFirewallRule (env : FirewallEnv) (p : FwParams) :
    FwResult × List FwApiCall :=
  if p.action = "create" then
    match env.insertResult with
    | .error e => (fwFailure p.action e, [.insert])
    | .ok op => fwAwait p.action p.ruleName op [.insert]
  else if p.action = "update" then
    match env.patchResult with
    | .error e => (fwFailure p.action e, [.patch])
    | .ok op => fwAwait p.action p.ruleName op [.patch]
  else if p.action = "delete" then
    match env.deleteResult with
    | .error e => (fwFailure p.action e, [.delete])
    | .ok op => fwAwait p.action p.ruleName op [.delete]
  else
    (fwFailure p.action ("Unknown action: " ++ p.action), [])

/-! ## Per-request session ids (`src/agent.ts`, `runAgent`) -/

/-- The session id `runAgent` computes for a request:
`'session-' + Date.now()`. -/
def sessionIdFor (now : Nat) : String :=
  "session-" ++ toString now

/-- The session-selection step of `runAgent` against the in-memory session
store (a list of existing session ids): look the fresh id up and create it
when absent; returns the session id used and the updated store. -/
def runAgentSessionChoice (now : Nat) (store : List String) :
    String × List String :=
  let sessionId := sessionIdFor now
  if sessionId ∈ store then (sessionId, store)
  else (sessionId, store ++ [sessionId])

/-! ## Agent tree and delegation (`src/agent.ts`) -/

/-- The statically declared shape of one `LlmAgent`: its name, the names of
the tools passed to it, and the names of its sub-agents. -/
structure AgentSpec where
  name : String
  tools : List String
  subAgents : List String
deriving DecidableEq

/-- `firewallAdminAgent`: the remediation role, sole owner of the mutating
tool. -/
def firewallAdminAgent : AgentSpec :=
  ⟨"firewall_admin", ["manage_firewall_rule"], []⟩

/-- `troubleshooterAgent`: the diagnostic role, with the four read-only
evidence tools and `firewall_admin` as sub-agent. -/
def troubleshooterAgent : AgentSpec :=
  ⟨"troubleshooter",
    ["fetch_network_architecture", "identify_network_projects",
     "connectivity_test_tool", "query_vpc_flow_logs"],
    ["firewall_admin"]⟩

/-- `agent` (`network_support`): the coordination role, no tools, delegates
to `troubleshooter`. -/
def networkSupportAgent : AgentSpec :=
  ⟨"network_support", [], ["troubleshooter"]⟩

/-- Lookup of the agent declared under a name; unknown names denote no
capability at all. -/
def agentOf (n : String) : AgentSpec :=
  if n = "network_support" then networkSupportAgent
  else if n = "troubleshooter" then troubleshooterAgent
  else if n = "firewall_admin" then firewallAdminAgent
  else ⟨n, [], []⟩

/-- One observable turn of a session: a user message (with the external
classification of whether it contains affirmative confirmation), a tool
invocation by the named agent, or a transfer of control between agents. -/
inductive Turn
  | user (text : String) (affirmative : Bool)
  | toolCall (agentName tool : String)
  | transfer (fromAgent toAgent : String)
deriving DecidableEq

/-- Whether a turn is a user turn classified as affirmative confirmation. -/
def isAffirmativeUserTurn : Turn → Bool
  | .user _ b => b
  | _ => false

/-- The delegation runtime contracted in the spec (§6) over the agent tree
declared in `src/agent.ts`: starting at the root agent, the oracle may emit
a user-visible turn, invoke any tool declared in the active agent's own
tool set, or move control along a parent/sub-agent edge of the tree.  No
other gate exists between the oracle's decisions and a tool invocation. -/
inductive ValidTrace : String → List Turn → Prop
  | nil : ValidTrace "network_support" []
  | user {a tr} (text : String) (affirmative : Bool) :
      ValidTrace a tr → ValidTrace a (tr ++ [.user text affirmative])
  | tool {a tr} (t : String) (ht : t ∈ (agentOf a).tools) :
      ValidTrace a tr → ValidTrace a (tr ++ [.toolCall a t])
  | transferDown {a tr} (b : String) (hb : b ∈ (agentOf a).subAgents) :
      ValidTrace a tr → ValidTrace b (tr ++ [.transfer a b])
  | transferUp {a tr} (b : String) (hb : a ∈ (agentOf b).subAgents) :
      ValidTrace a tr → ValidTrace b (tr ++ [.transfer a b])

/-! ## Auxiliary definitions used by the statements -/

/-- Invariant threaded through a discovery run: the roots stay visited,
every edge target is visited, no edge target is a root, and edge targets
are pairwise distinct. -/
def ScanInv (roots : List String) (st : ScanState) : Prop :=
  (∀ r, r ∈ roots → r ∈ st.visited) ∧
  (∀ t, t ∈ edgeTargets st.graph → t ∈ st.visited) ∧
  (∀ t, t ∈ edgeTargets st.graph → t ∉ roots) ∧
  (edgeTargets st.graph).Nodup

/-- The Compute Engine endpoint `manageFirewallRule` consults for a
recognized action. -/
def fwEnvFor (env : FirewallEnv) (action : String) : Except String OpHandle :=
  if action = "create" then env.insertResult
  else if action = "update" then env.patchResult
  else env.deleteResult

/-- Scan environment in which the XPN-host lookup reports the deny-listed
client identity as host and everything else is empty. -/
def scanEnvXpnDenied : String → ProjectScanEnv := fun _ =>
  ⟨.ok (some "google-cloud-clients"), .ok [], .ok [], .ok []⟩

/-- Scan environment in which the same target project `q` is detected both
through a usable subnet and through a forwarding rule, with distinct
reasons. -/
def scanEnvTwoPaths : String → ProjectScanEnv := fun _ =>
  ⟨.ok none,
   .ok [⟨some "projects/q/regions/r/subnetworks/s", none⟩],
   .ok [⟨"compute.googleapis.com/ForwardingRule", "fr1", none,
         some "projects/q/global/networks/n", none⟩],
   .ok []⟩

/-- Scan environment discovering one host project from one root, used to
witness the discovery invariants on a non-trivial run. -/
def scanEnvOneHost : String → ProjectScanEnv := fun _ =>
  ⟨.ok (some "proj-b"), .ok [], .ok [], .ok []⟩

/-- One concrete flow-log row. -/
def sampleFlowRecord : FlowRecord :=
  ⟨100, "10.0.0.1", 1000, "10.0.0.2", 80, 6, 512, 3, "subnet-a", "p2"⟩

/-- A second concrete flow-log row with an earlier timestamp. -/
def sampleFlowRecordOld : FlowRecord :=
  ⟨50, "10.0.0.2", 80, "10.0.0.1", 1000, 6, 256, 4, "subnet-a", "p2"⟩

/-- Flow-log environment where `p1`'s query fails and `p2` returns two
rows, used to witness the correlator properties. -/
def flowEnvMixed : FlowLogEnv := fun p =>
  if p = "p1" then .error "Table not found"
  else if p = "p2" then .ok [sampleFlowRecordOld, sampleFlowRecord]
  else .ok []

/-- Second copy of the mixed flow-log environment, used by the
error-isolation witness. -/
def flowEnvMixed2 : FlowLogEnv := fun p =>
  if p = "p1" then .error "Dataset in different location"
  else if p = "p2" then .ok [sampleFlowRecord]
  else .ok []

/-- Probe environment whose test creation fails (for example because the
reachability API is disabled). -/
def probeEnvCreateFails : ProbeEnv :=
  ⟨.error "PERMISSION_DENIED", .ok ()⟩

/-- Firewall environment where every Compute Engine call would succeed
without a long-running operation to await. -/
def fwEnvAllOk : FirewallEnv :=
  ⟨.ok ⟨false, .ok ()⟩, .ok ⟨false, .ok ()⟩, .ok ⟨false, .ok ()⟩⟩

/-- Firewall-manager parameters carrying an unrecognized action. -/
def fwParamsBadAction : FwParams :=
  ⟨"p", "drop", "allow-http", none⟩

/-- Oracle decision sequence that reaches the mutating tool with no user
turn classified as affirmative confirmation: the coordinator delegates to
the troubleshooter, which immediately transfers to the firewall admin,
which invokes the mutation. -/
def c1BadTrace : List Turn :=
  [.user "please fix my firewall" false,
   .transfer "network_support" "troubleshooter",
   .transfer "troubleshooter" "firewall_admin",
   .toolCall "firewall_admin" "manage_firewall_rule"]

/-! # Theorems -/

theorem foldl_preserves {α σ : Type} {P : σ → Prop} (f : σ → α → σ)
    (hf : ∀ s a, P s → P (f s a)) :
    ∀ (l : List α) (s : σ), P s → P (l.foldl f s)
  | [], _, hs => hs
  | a :: l, s, hs => foldl_preserves f hf l (f s a) (hf s a hs)

theorem mem_insertUniq_self (l : List String) (x : String) :
    x ∈ insertUniq l x := by
  unfold insertUniq
  split
  · assumption
  · exact List.mem_append_right _ (List.mem_singleton.mpr rfl)

theorem mem_insertUniq_of_mem {l : List String} {x : String} (y : String)
    (h : x ∈ l) : x ∈ insertUniq l y := by
  unfold insertUniq
  split
  · exact h
  · exact List.mem_append_left _ h

theorem mem_insertAll_of_mem_acc {acc : List String} {x : String}
    (xs : List String) (h : x ∈ acc) : x ∈ insertAll acc xs := by
  induction xs generalizing acc with
  | nil => exact h
  | cons y ys ih => exact ih (mem_insertUniq_of_mem y h)

theorem mem_insertAll_of_mem {x : String} :
    ∀ {xs acc : List String}, x ∈ xs → x ∈ insertAll acc xs := by
  intro xs
  induction xs with
  | nil => intro acc h; cases h
  | cons y ys ih =>
    intro acc h
    rcases List.mem_cons.mp h with rfl | h
    · exact mem_insertAll_of_mem_acc ys (mem_insertUniq_self acc x)
    · exact ih h

theorem insertUniq_nodup {l : List String} (x : String) (h : l.Nodup) :
    (insertUniq l x).Nodup := by
  unfold insertUniq
  split
  · exact h
  · next hx =>
    refine List.nodup_append.mpr ⟨h, List.nodup_singleton x, ?_⟩
    intro a ha hb
    rw [List.mem_singleton] at hb
    subst hb
    exact hx ha

theorem insertAll_nodup : ∀ (xs acc : List String), acc.Nodup →
    (insertAll acc xs).Nodup
  | [], _, h => h
  | y :: ys, _, h => insertAll_nodup ys _ (insertUniq_nodup y h)

theorem edgeTargets_append (g h : List GraphEntry) :
    edgeTargets (g ++ h) = edgeTargets g ++ edgeTargets h := by
  unfold edgeTargets
  exact List.filterMap_append _ _ _

theorem pushCandidate_inv {roots : List String} {st : ScanState}
    (src : String) (deny : Bool) (c : String × String)
    (h : ScanInv roots st) : ScanInv roots (pushCandidate src deny st c) := by
  obtain ⟨h1, h2, h3, h4⟩ := h
  unfold pushCandidate
  split
  · exact ⟨h1, h2, h3, h4⟩
  split
  · exact ⟨h1, h2, h3, h4⟩
  split
  · exact ⟨h1, h2, h3, h4⟩
  next hnm =>
    have he : edgeTargets (st.graph ++ [.edge src c.1 c.2]) =
        edgeTargets st.graph ++ [c.1] := by
      rw [edgeTargets_append]; rfl
    refine ⟨?_, ?_, ?_, ?_⟩
    · intro r hr
      exact List.mem_append_left _ (h1 r hr)
    · intro t ht
      rw [he] at ht
      rcases List.mem_append.mp ht with ht | ht
      · exact List.mem_append_left _ (h2 t ht)
      · exact List.mem_append_right _ ht
    · intro t ht hroot
      rw [he] at ht
      rcases List.mem_append.mp ht with ht | ht
      · exact h3 t ht hroot
      · rw [List.mem_singleton] at ht
        subst ht
        exact hnm (h1 c.1 hroot)
    · show (edgeTargets (st.graph ++ [.edge src c.1 c.2])).Nodup
      rw [he]
      refine List.nodup_append.mpr ⟨h4, List.nodup_singleton _, ?_⟩
      intro a ha hb
      rw [List.mem_singleton] at hb
      subst hb
      exact hnm (h2 c.1 ha)

theorem scanErrorPush_inv {roots : List String} {st : ScanState}
    (pid e : String) (h : ScanInv roots st) :
    ScanInv roots { st with graph := st.graph ++ [.scanError pid e] } := by
  have he : edgeTargets (st.graph ++ [.scanError pid e]) =
      edgeTargets st.graph := by
    rw [edgeTargets_append]
    simp [edgeTargets]
  obtain ⟨h1, h2, h3, h4⟩ := h
  refine ⟨h1, ?_, ?_, ?_⟩
  · intro t ht
    rw [show ({ st with graph := st.graph ++ [.scanError pid e] } :
        ScanState).graph = st.graph ++ [.scanError pid e] from rfl, he] at ht
    exact h2 t ht
  · intro t ht
    rw [show ({ st with graph := st.graph ++ [.scanError pid e] } :
        ScanState).graph = st.graph ++ [.scanError pid e] from rfl, he] at ht
    exact h3 t ht
  · show (edgeTargets (st.graph ++ [.scanError pid e])).Nodup
    rw [he]
    exact h4

theorem foldl_push_inv {roots : List String} (src : String) (deny : Bool)
    (cs : List (String × String)) {st : ScanState} (h : ScanInv roots st) :
    ScanInv roots (cs.foldl (pushCandidate src deny) st) :=
  foldl_preserves _ (fun _ a hs => pushCandidate_inv src deny a hs) cs st h

theorem scanProject_inv {roots : List String} (env : ProjectScanEnv)
    (pid : String) {st : ScanState} (h : ScanInv roots st) :
    ScanInv roots (scanProject env pid st) := by
  obtain ⟨xr, us, sr, si⟩ := env
  dsimp only [scanProject]
  cases xr with
  | error e =>
    cases us <;> cases sr <;> try cases si
    all_goals
      repeat
        first
        | apply foldl_push_inv
        | apply pushCandidate_inv
        | apply scanErrorPush_inv
    all_goals exact h
  | ok o =>
    cases o <;> cases us <;> cases sr <;> try cases si
    all_goals
      repeat
        first
        | apply foldl_push_inv
        | apply pushCandidate_inv
        | apply scanErrorPush_inv
    all_goals exact h

theorem detectAgentScope_inv (env : String → ProjectScanEnv)
    (input : RootsInput) :
    ScanInv (parseRoots input)
      ⟨(detectAgentScope env input).detectedScope,
       (detectAgentScope env input).relationships,
       (detectAgentScope env input).scanned⟩ := by
  have hinit : ScanInv (parseRoots input)
      ⟨insertAll [] (parseRoots input), [], []⟩ := by
    refine ⟨fun r hr => mem_insertAll_of_mem hr, ?_, ?_, ?_⟩ <;>
      simp [edgeTargets]
  exact foldl_preserves (fun st pid => scanProject (env pid) pid st)
    (fun _ a hs => scanProject_inv (env a) a hs) (parseRoots input) _ hinit

theorem pushCandidate_scanned (src : String) (deny : Bool) (st : ScanState)
    (c : String × String) : (pushCandidate src deny st c).scanned = st.scanned := by
  unfold pushCandidate
  split
  · rfl
  split
  · rfl
  split
  · rfl
  · rfl

theorem foldl_push_scanned (src : String) (deny : Bool)
    (cs : List (String × String)) (st : ScanState) :
    (cs.foldl (pushCandidate src deny) st).scanned = st.scanned := by
  induction cs generalizing st with
  | nil => rfl
  | cons c cs ih => rw [List.foldl_cons, ih, pushCandidate_scanned]

theorem scanProject_scanned (env : ProjectScanEnv) (pid : String)
    (st : ScanState) : (scanProject env pid st).scanned = st.scanned ++ [pid] := by
  obtain ⟨xr, us, sr, si⟩ := env
  dsimp only [scanProject]
  cases xr with
  | error e =>
    cases us <;> cases sr <;> try cases si
    all_goals simp [foldl_push_scanned, pushCandidate_scanned]
  | ok o =>
    cases o <;> cases us <;> cases sr <;> try cases si
    all_goals simp [foldl_push_scanned, pushCandidate_scanned]

theorem detectAgentScope_scanned (env : String → ProjectScanEnv)
    (input : RootsInput) :
    (detectAgentScope env input).scanned = parseRoots input := by
  have key : ∀ (l : List String) (st : ScanState),
      (l.foldl (fun st pid => scanProject (env pid) pid st) st).scanned =
        st.scanned ++ l := by
    intro l
    induction l with
    | nil => intro st; simp
    | cons p ps ih =>
      intro st
      rw [List.foldl_cons, ih, scanProject_scanned]
      simp
  show (((parseRoots input).foldl (fun st pid => scanProject (env pid) pid st)
      ⟨insertAll [] (parseRoots input), [], []⟩).scanned) = parseRoots input
  rw [key]
  rfl

/-- C9.  For every discovery run, the returned scope contains every root
project, every edge's target is a member of the returned scope, and the
projects scanned are exactly the root projects in input order (discovered
targets are never added to the frontier); the run is a total function, so
it terminates. -/
theorem discovery_scope_invariants (env : String → ProjectScanEnv)
    (input : RootsInput) :
    (∀ r, r ∈ parseRoots input →
        r ∈ (detectAgentScope env input).detectedScope) ∧
    (∀ t, t ∈ edgeTargets (detectAgentScope env input).relationships →
        t ∈ (detectAgentScope env input).detectedScope) ∧
    (detectAgentScope env input).scanned = parseRoots input := by
  obtain ⟨h1, h2, _, _⟩ := detectAgentScope_inv env input
  exact ⟨h1, h2, detectAgentScope_scanned env input⟩

/-- Witness for C9 on a run with one root discovering one host project. -/
theorem discovery_scope_invariants_witness :
    "proj-a" ∈ (detectAgentScope scanEnvOneHost (.arr ["proj-a"])).detectedScope ∧
    "proj-b" ∈ (detectAgentScope scanEnvOneHost (.arr ["proj-a"])).detectedScope :=
  ⟨(discovery_scope_invariants scanEnvOneHost (.arr ["proj-a"])).1 "proj-a"
      (by decide),
   (discovery_scope_invariants scanEnvOneHost (.arr ["proj-a"])).2.1 "proj-b"
      (by decide)⟩

/-- C4 counterexample.  The deny-listed identity `google-cloud-clients` is
rejected only at the instance-NIC extraction site: when the XPN-host lookup
reports it as host project, it does appear as an edge target. -/
theorem denylist_escapes_xpn_site :
    GraphEntry.edge "p" "google-cloud-clients"
        "Project is a Service Project attached to Host Project google-cloud-clients"
      ∈ (detectAgentScope scanEnvXpnDenied (.arr ["p"])).relationships := by
  decide

/-- C4 amended.  No project equal to any root ever appears as an edge
target (the `visitedProjects` gate is seeded with the roots); the deny-list
check, however, exists only at the instance-NIC extraction site, so
deny-listed identities reported by the other sites are not excluded. -/
theorem discovery_no_root_targets (env : String → ProjectScanEnv)
    (input : RootsInput) :
    ∀ t, t ∈ edgeTargets (detectAgentScope env input).relationships →
      t ∉ parseRoots input := by
  obtain ⟨_, _, h3, _⟩ := detectAgentScope_inv env input
  exact h3

/-- Witness for the amended C4: on the XPN-denied run, the discovered edge
target is not the root. -/
theorem discovery_no_root_targets_witness :
    "google-cloud-clients" ∉ parseRoots (RootsInput.arr ["p"]) :=
  discovery_no_root_targets scanEnvXpnDenied (.arr ["p"]) "google-cloud-clients"
    (by decide)

/-- C5 counterexample.  When the same target `q` is detected first through
a usable subnet and then through a forwarding rule (distinct reasons), only
the first edge is recorded: the `visitedProjects` gate suppresses the
second detection entirely. -/
theorem second_reason_suppressed :
    (detectAgentScope scanEnvTwoPaths (.arr ["p"])).relationships =
      [GraphEntry.edge "p" "q"
        "Project has usable subnet projects/q/regions/r/subnetworks/s from Host Project q"] ∧
    GraphEntry.edge "p" "q" "ForwardingRule fr1 uses network/subnet in q"
      ∉ (detectAgentScope scanEnvTwoPaths (.arr ["p"])).relationships := by
  constructor
  · decide
  · decide

/-- C5 amended.  Each project appears as an edge target at most once per
discovery run: the first detection wins and later detections of the same
target — even with a distinct reason or through a different code path —
are suppressed by the `visitedProjects` gate. -/
theorem discovery_targets_nodup (env : String → ProjectScanEnv)
    (input : RootsInput) :
    (edgeTargets (detectAgentScope env input).relationships).Nodup := by
  obtain ⟨_, _, _, h4⟩ := detectAgentScope_inv env input
  exact h4

/-- C10.  `detectAgentScope` accepts its roots as an array (taken as is) or
as a comma-separated string (split on commas, each element trimmed); any
other input scans nothing and yields empty scope and relationships rather
than an error. -/
theorem detect_input_coercion (env : String → ProjectScanEnv) :
    (∀ l, (detectAgentScope env (.arr l)).scanned = l) ∧
    (∀ s, (detectAgentScope env (.str s)).scanned =
        (s.splitOn ",").map String.trim) ∧
    (detectAgentScope env .other).detectedScope = [] ∧
    (detectAgentScope env .other).relationships = [] ∧
    (detectAgentScope env .other).scanned = [] := by
  refine ⟨fun l => detectAgentScope_scanned env (.arr l),
          fun s => detectAgentScope_scanned env (.str s), rfl, rfl, rfl⟩

theorem collect_records_ok (env : FlowLogEnv) :
    ∀ (ps : List String) (r : TaggedRecord), r ∈ (collectFlowLogs env ps).1 →
      ∃ rows, env r.source_dataset_project = Except.ok rows
  | [], r, h => absurd h (by simp [collectFlowLogs])
  | p :: qs, r, h => by
    rw [collectFlowLogs] at h
    rcases hep : env p with e | rows
    · rw [hep] at h
      dsimp at h
      exact collect_records_ok env qs r h
    · rw [hep] at h
      dsimp at h
      rcases List.mem_append.mp h with h | h
      · rcases List.mem_map.mp h with ⟨row, _, rfl⟩
        exact ⟨rows, hep⟩
      · exact collect_records_ok env qs r h

theorem collect_errors_spec (env : FlowLogEnv) :
    ∀ (ps : List String) (e : FlowLogError), e ∈ (collectFlowLogs env ps).2 →
      env e.projectId = Except.error e.error ∧ e.projectId ∈ ps
  | [], e, h => absurd h (by simp [collectFlowLogs])
  | p :: qs, e, h => by
    rw [collectFlowLogs] at h
    rcases hep : env p with m | rows
    · rw [hep] at h
      dsimp at h
      rcases List.mem_cons.mp h with rfl | h
      · exact ⟨hep, List.mem_cons_self _ _⟩
      · have := collect_errors_spec env qs e h
        exact ⟨this.1, List.mem_cons_of_mem _ this.2⟩
    · rw [hep] at h
      dsimp at h
      have := collect_errors_spec env qs e h
      exact ⟨this.1, List.mem_cons_of_mem _ this.2⟩

theorem collect_errors_filter (env : FlowLogEnv) :
    ∀ (ps : List String), ps.Nodup → ∀ (p m : String), p ∈ ps →
      env p = .error m →
      ((collectFlowLogs env ps).2.filter (fun e => e.projectId = p)) = [⟨p, m⟩]
  | [], _, p, m, hp, _ => absurd hp (by simp)
  | q :: qs, hn, p, m, hp, he => by
    have hqn : q ∉ qs := (List.nodup_cons.mp hn).1
    have hqs : qs.Nodup := (List.nodup_cons.mp hn).2
    rw [collectFlowLogs]
    rcases List.mem_cons.mp hp with rfl | hp
    · rw [he]
      dsimp
      rw [List.filter_cons_of_pos (by simp)]
      have hrest : ((collectFlowLogs env qs).2.filter
          (fun e => e.projectId = p)) = [] := by
        rw [List.filter_eq_nil_iff]
        intro e hee
        have := (collect_errors_spec env qs e hee).2
        simp only [decide_eq_true_eq]
        intro hcontra
        rw [hcontra] at this
        exact hqn this
      rw [hrest]
    · have hpq : p ≠ q := fun hEq => hqn (hEq ▸ hp)
      rcases heq : env q with m' | rows
      · dsimp
        rw [List.filter_cons_of_neg (by simp [hpq.symm])]
        exact collect_errors_filter env qs hqs p m hp he
      · dsimp
        exact collect_errors_filter env qs hqs p m hp he

theorem collect_mem_of_ok (env : FlowLogEnv) :
    ∀ (ps : List String) (q : String) (rows : List FlowRecord), q ∈ ps →
      env q = Except.ok rows → ∀ r, r ∈ rows →
      tagRecord q r ∈ (collectFlowLogs env ps).1
  | [], q, rows, hq, _, _, _ => absurd hq (by simp)
  | p :: qs, q, rows, hq, hok, r, hr => by
    rw [collectFlowLogs]
    rcases List.mem_cons.mp hq with rfl | hq
    · rw [hok]
      dsimp
      exact List.mem_append_left _ (List.mem_map.mpr ⟨r, hr, rfl⟩)
    · rcases hep : env p with m | rows'
      · dsimp
        exact collect_mem_of_ok env qs q rows hq hok r hr
      · dsimp
        exact List.mem_append_right _ (collect_mem_of_ok env qs q rows hq hok r hr)

/-- C6.  For every combination of per-project query outcomes, the records
returned by the flow-log correlator are sorted by timestamp descending,
number at most `limit`, and none is tagged with a project that reported a
query error. -/
theorem flowlog_result_wellformed (env : FlowLogEnv) (projects : List String)
    (limit : Nat) :
    List.Sorted tsGE (queryVpcFlowLogs env projects limit).records ∧
    (queryVpcFlowLogs env projects limit).records.length ≤ limit ∧
    ∀ r, r ∈ (queryVpcFlowLogs env projects limit).records →
      ∀ e, e ∈ (queryVpcFlowLogs env projects limit).errors →
        r.source_dataset_project ≠ e.projectId := by
  refine ⟨?_, ?_, ?_⟩
  · exact List.Pairwise.sublist (List.take_sublist _ _)
      (List.sorted_insertionSort tsGE
        (collectFlowLogs env (insertAll [] projects)).1)
  · exact List.length_take_le _ _
  · intro r hr e he
    have hr' : r ∈ (collectFlowLogs env (insertAll [] projects)).1 :=
      ((List.perm_insertionSort tsGE _).mem_iff).mp
        ((List.take_sublist _ _).subset hr)
    obtain ⟨rows, hok⟩ := collect_records_ok env _ r hr'
    have herr := (collect_errors_spec env (insertAll [] projects) e he).1
    intro hEq
    rw [hEq, herr] at hok
    cases hok

/-- Witness for C6: a record tagged by the succeeding project is never
tagged by the failing one. -/
theorem flowlog_result_wellformed_witness :
    (tagRecord "p2" sampleFlowRecord).source_dataset_project ≠ "p1" :=
  (flowlog_result_wellformed flowEnvMixed ["p1", "p2"] 5).2.2
    (tagRecord "p2" sampleFlowRecord) (by decide)
    ⟨"p1", "Table not found"⟩ (by decide)

/-- C7.  A per-project query failure never aborts the correlation: the
failing project contributes exactly one `{projectId, error}` entry, and
every other project is still queried, its rows entering the merged set. -/
theorem flowlog_error_isolated (env : FlowLogEnv) (projects : List String)
    (limit : Nat) (p m : String) (hp : p ∈ projects)
    (he : env p = .error m) :
    ((queryVpcFlowLogs env projects limit).errors.filter
        (fun e => e.projectId = p)) = [⟨p, m⟩] ∧
    ∀ q rows, q ∈ projects → env q = Except.ok rows →
      ∀ r, r ∈ rows →
        tagRecord q r ∈ (collectFlowLogs env (insertAll [] projects)).1 := by
  constructor
  · exact collect_errors_filter env _ (insertAll_nodup _ _ List.nodup_nil)
      p m (mem_insertAll_of_mem hp) he
  · intro q rows hq hok r hr
    exact collect_mem_of_ok env _ q rows (mem_insertAll_of_mem hq) hok r hr

/-- Witness for C7 on a run where `p1` fails and `p2` succeeds. -/
theorem flowlog_error_isolated_witness :
    ((queryVpcFlowLogs flowEnvMixed2 ["p1", "p2"] 5).errors.filter
        (fun e => e.projectId = "p1")) =
      [⟨"p1", "Dataset in different location"⟩] ∧
    tagRecord "p2" sampleFlowRecord ∈
      (collectFlowLogs flowEnvMixed2 (insertAll [] ["p1", "p2"])).1 := by
  have h := flowlog_error_isolated flowEnvMixed2 ["p1", "p2"] 5 "p1"
    "Dataset in different location" (by decide) (by rfl)
  exact ⟨h.1, h.2 "p2" [sampleFlowRecord] (by decide) (by rfl)
    sampleFlowRecord (by decide)⟩

/-- C2 counterexample.  When test creation (or evaluation) fails, the catch
block answers directly and no delete call is made — not exactly one. -/
theorem probe_delete_skipped_on_failure :
    ¬ ((runConnectivityTest probeEnvCreateFails "p" 0).2 = 1) := by
  decide

/-- C2 amended.  Exactly one delete call is made whenever test creation and
evaluation succeed (even if the delete itself then fails); when creation or
evaluation fails, no delete call is made at all. -/
theorem probe_delete_call_count (env : ProbeEnv) (projectId : String)
    (now : Nat) :
    (runConnectivityTest env projectId now).2 =
      (match env.createResult with
       | .ok _ => 1
       | .error _ => 0) := by
  obtain ⟨cr, dr⟩ := env
  cases cr with
  | error e => rfl
  | ok resp =>
    cases dr with
    | error e => rfl
    | ok u => rfl

theorem fwAwait_status (a rn : String) (op : OpHandle)
    (calls : List FwApiCall) :
    (fwAwait a rn op calls).1.status = "success" ∨
    (fwAwait a rn op calls).1.status = "error" := by
  obtain ⟨hp, pr⟩ := op
  cases hp <;> cases pr <;> simp [fwAwait, fwFailure, fwSuccess]

theorem fwAwait_promise_error (a rn : String) (op : OpHandle)
    (calls : List FwApiCall) (e : String) (hhp : op.hasPromise = true)
    (hpr : op.promiseResult = .error e) :
    (fwAwait a rn op calls).1 = fwFailure a e := by
  obtain ⟨hp, pr⟩ := op
  dsimp at hhp hpr
  subst hhp
  subst hpr
  simp [fwAwait]

/-- C8.  The firewall executor always answers with a status result; an
unrecognized action yields an immediate error result with no external call
made; and every failure of the selected Compute Engine call (or of the
awaited operation promise) is converted to an error result carrying the
underlying message. -/
theorem firewall_manager_total (env : FirewallEnv) (p : FwParams) :
    ((manageFirewallRule env p).1.status = "success" ∨
     (manageFirewallRule env p).1.status = "error") ∧
    (p.action ≠ "create" → p.action ≠ "update" → p.action ≠ "delete" →
      manageFirewallRule env p =
        (fwFailure p.action ("Unknown action: " ++ p.action), [])) ∧
    (∀ e, (p.action = "create" ∨ p.action = "update" ∨ p.action = "delete") →
      fwEnvFor env p.action = .error e →
      (manageFirewallRule env p).1 = fwFailure p.action e) ∧
    (∀ e op, (p.action = "create" ∨ p.action = "update" ∨ p.action = "delete") →
      fwEnvFor env p.action = .ok op → op.hasPromise = true →
      op.promiseResult = .error e →
      (manageFirewallRule env p).1 = fwFailure p.action e) := by
  refine ⟨?_, ?_, ?_, ?_⟩
  · by_cases hc : p.action = "create"
    · simp only [manageFirewallRule, if_pos hc]
      cases env.insertResult with
      | error e => simp [fwFailure]
      | ok op => exact fwAwait_status _ _ _ _
    · by_cases hu : p.action = "update"
      · simp only [manageFirewallRule, if_neg hc, if_pos hu]
        cases env.patchResult with
        | error e => simp [fwFailure]
        | ok op => exact fwAwait_status _ _ _ _
      · by_cases hd : p.action = "delete"
        · simp only [manageFirewallRule, if_neg hc, if_neg hu, if_pos hd]
          cases env.deleteResult with
          | error e => simp [fwFailure]
          | ok op => exact fwAwait_status _ _ _ _
        · simp only [manageFirewallRule, if_neg hc, if_neg hu, if_neg hd]
          exact Or.inr rfl
  · intro h1 h2 h3
    simp only [manageFirewallRule, if_neg h1, if_neg h2, if_neg h3]
  · intro e hrec herr
    rcases hrec with hc | hu | hd
    · have h1 : fwEnvFor env p.action = env.insertResult := by
        simp [fwEnvFor, hc]
      rw [h1] at herr
      simp only [manageFirewallRule, if_pos hc, herr]
    · have hnc : p.action ≠ "create" := by rw [hu]; decide
      have h1 : fwEnvFor env p.action = env.patchResult := by
        simp [fwEnvFor, hu]
      rw [h1] at herr
      simp only [manageFirewallRule, if_neg hnc, if_pos hu, herr]
    · have hnc : p.action ≠ "create" := by rw [hd]; decide
      have hnu : p.action ≠ "update" := by rw [hd]; decide
      have h1 : fwEnvFor env p.action = env.deleteResult := by
        simp [fwEnvFor, hd, hnc, hnu]
      rw [h1] at herr
      simp only [manageFirewallRule, if_neg hnc, if_neg hnu, if_pos hd, herr]
  · intro e op hrec hok hhp hpr
    rcases hrec with hc | hu | hd
    · have h1 : fwEnvFor env p.action = env.insertResult := by
        simp [fwEnvFor, hc]
      rw [h1] at hok
      simp only [manageFirewallRule, if_pos hc, hok]
      exact fwAwait_promise_error _ _ _ _ _ hhp hpr
    · have hnc : p.action ≠ "create" := by rw [hu]; decide
      have h1 : fwEnvFor env p.action = env.patchResult := by
        simp [fwEnvFor, hu]
      rw [h1] at hok
      simp only [manageFirewallRule, if_neg hnc, if_pos hu, hok]
      exact fwAwait_promise_error _ _ _ _ _ hhp hpr
    · have hnc : p.action ≠ "create" := by rw [hd]; decide
      have hnu : p.action ≠ "update" := by rw [hd]; decide
      have h1 : fwEnvFor env p.action = env.deleteResult := by
        simp [fwEnvFor, hd, hnc, hnu]
      rw [h1] at hok
      simp only [manageFirewallRule, if_neg hnc, if_neg hnu, if_pos hd, hok]
      exact fwAwait_promise_error _ _ _ _ _ hhp hpr

/-- Witness for C8: the unrecognized action `drop` is rejected with an
error result and zero external calls. -/
theorem firewall_manager_total_witness :
    manageFirewallRule fwEnvAllOk fwParamsBadAction =
      (fwFailure "drop" "Unknown action: drop", []) :=
  (firewall_manager_total fwEnvAllOk fwParamsBadAction).2.1
    (by decide) (by decide) (by decide)

/-- C3 (code bug).  Two requests of the same conversation, arriving at
`Date.now()` values 1 and 2, are given distinct session ids and the second
request creates a second session in the store: conversation state does not
persist across turns, because `runAgent` derives a fresh
`'session-' + Date.now()` id per request and its `getSession` lookup can
never find an earlier session. -/
theorem session_new_per_request :
    (runAgentSessionChoice 1 []).1 = "session-1" ∧
    (runAgentSessionChoice 2 (runAgentSessionChoice 1 []).2).1 = "session-2" ∧
    (runAgentSessionChoice 1 []).1 ≠
      (runAgentSessionChoice 2 (runAgentSessionChoice 1 []).2).1 ∧
    (runAgentSessionChoice 2 (runAgentSessionChoice 1 []).2).2.length = 2 := by
  decide

/-- Helper: the only declared agent whose tool set contains the mutating
tool is the firewall admin. -/
theorem mutation_tool_pin (n : String)
    (h : "manage_firewall_rule" ∈ (agentOf n).tools) : n = "firewall_admin" := by
  by_cases h1 : n = "network_support"
  · subst h1; exact absurd h (by decide)
  · by_cases h2 : n = "troubleshooter"
    · subst h2; exact absurd h (by decide)
    · by_cases h3 : n = "firewall_admin"
      · exact h3
      · exfalso
        unfold agentOf at h
        rw [if_neg h1, if_neg h2, if_neg h3] at h
        cases h

/-- C1 counterexample.  A sequence of oracle decisions with no user turn
classified as affirmative confirmation reaches the mutating tool: the
coordinator delegates, the troubleshooter transfers to the firewall admin,
and the firewall admin invokes `manage_firewall_rule`.  The confirmation
requirement lives only in instruction text, not in any code-level gate. -/
theorem mutation_without_confirmation_reachable :
    ValidTrace "firewall_admin" c1BadTrace ∧
    Turn.toolCall "firewall_admin" "manage_firewall_rule" ∈ c1BadTrace ∧
    c1BadTrace.all (fun t => !isAffirmativeUserTurn t) = true := by
  refine ⟨?_, by decide, by decide⟩
  have h0 := ValidTrace.nil
  have h1 := ValidTrace.user "please fix my firewall" false h0
  have h2 := ValidTrace.transferDown "troubleshooter" (by decide) h1
  have h3 := ValidTrace.transferDown "firewall_admin" (by decide) h2
  have h4 := ValidTrace.tool "manage_firewall_rule" (by decide) h3
  exact h4

/-- C1 amended.  Structurally, neither the diagnostic role nor the
coordinator holds the mutating tool, and in every reachable oracle decision
sequence any invocation of `manage_firewall_rule` is made by the
`firewall_admin` role; no code-level gate, however, requires an affirmative
user turn before that invocation. -/
theorem mutation_confined_to_firewall_admin :
    "manage_firewall_rule" ∉ troubleshooterAgent.tools ∧
    "manage_firewall_rule" ∉ networkSupportAgent.tools ∧
    ∀ (a : String) (tr : List Turn), ValidTrace a tr →
      ∀ ag, Turn.toolCall ag "manage_firewall_rule" ∈ tr →
        ag = "firewall_admin" := by
  refine ⟨by decide, by decide, ?_⟩
  intro a tr h
  induction h with
  | nil =>
    intro ag hm
    cases hm
  | user text aff _ ih =>
    intro ag hm
    rcases List.mem_append.mp hm with hm | hm
    · exact ih ag hm
    · rw [List.mem_singleton] at hm
      cases hm
  | tool t ht _ ih =>
    intro ag hm
    rcases List.mem_append.mp hm with hm | hm
    · exact ih ag hm
    · rw [List.mem_singleton] at hm
      injection hm with hag htool
      subst hag
      subst htool
      exact mutation_tool_pin _ ht
  | transferDown b hb _ ih =>
    intro ag hm
    rcases List.mem_append.mp hm with hm | hm
    · exact ih ag hm
    · rw [List.mem_singleton] at hm
      cases hm
  | transferUp b hb _ ih =>
    intro ag hm
    rcases List.mem_append.mp hm with hm | hm
    · exact ih ag hm
    · rw [List.mem_singleton] at hm
      cases hm

/-- Witness for the amended C1, on a trace whose mutating call the theorem
pins to the firewall admin. -/
theorem mutation_confined_witness :
    "manage_firewall_rule" ∉ troubleshooterAgent.tools ∧
    ("firewall_admin" : String) = "firewall_admin" := by
  refine ⟨mutation_confined_to_firewall_admin.1, ?_⟩
  have h0 := ValidTrace.nil
  have h1 := ValidTrace.transferDown "troubleshooter" (by decide) h0
  have h2 := ValidTrace.transferDown "firewall_admin" (by decide) h1
  have h3 := ValidTrace.tool "manage_firewall_rule" (by decide) h2
  exact mutation_confined_to_firewall_admin.2.2 _ _ h3 "firewall_admin" (by decide)

end AdkNet
